import Mathlib

/-!
Verification of the wait-time-logger ingestion engine (`src/src/logger.py`).

Shallow embedding conventions:
* Timestamps are modelled as `Int` minutes since an arbitrary epoch; a
  calendar date is the floor of the timestamp by 1440 (minutes per day),
  and the one-hour debounce threshold of `update_session`
  (`(time - self.last_write) / timedelta(hours=1) > 1`) becomes `> 60`.
* The `ongoing` defaultdict of per-badge DataFrames becomes an
  insertion-ordered association list `List (String × Journey)`:
  Python dicts preserve insertion order, a new key is appended at the
  end, and `del` removes a key leaving the others in place.
* The database tables `Logs` and `BadgeScans` become the lists
  `rawEvents` and `badgeScans`; text-log appends become `textLog`.
* Python exceptions become `Except String`; the `UserWarning` raised by
  `Logger.finalize` is the `.error` case.
* Messages on the live path are decoded as ASCII, so the `\w` class of
  the message regex is modelled by its ASCII meaning
  (letters, digits, underscore).
-/

/-- The five recognized station codes of the regex class `[ABCVH]`. -/
inductive Station where
  | A | B | C | V | H
deriving DecidableEq, Repr

/-- The station letter as it appears on the wire. -/
def Station.char : Station → Char
  | .A => 'A'
  | .B => 'B'
  | .C => 'C'
  | .V => 'V'
  | .H => 'H'

/-- Inverse of `Station.char`: which station a message letter denotes. -/
def charToStation (c : Char) : Option Station :=
  if c = 'A' then some .A
  else if c = 'B' then some .B
  else if c = 'C' then some .C
  else if c = 'V' then some .V
  else if c = 'H' then some .H
  else none

/-- ASCII meaning of the Python regex class `\w`: letter, digit or underscore. -/
def isWordChar (c : Char) : Bool :=
  c.isAlphanum || c = '_'

/--
Embedding of `re.match(r'([ABCVH]) ([\w]{8})$', message)` (logger.py:285),
on the character list of the message.

`re.match` anchors at the start of the string only; the final `$` matches
at the end of the string or just before a newline that is the last
character.  So the pattern accepts a station letter, one space, exactly
eight word characters, and then either nothing or one trailing newline.
-/
def matchObsL : List Char → Option (Station × String)
  | st :: sp :: rest =>
    if sp = ' ' then
      match charToStation st with
      | none => none
      | some station =>
        if (rest.take 8).length = 8 ∧ (rest.take 8).all isWordChar ∧
            (rest.drop 8 = [] ∨ rest.drop 8 = ['\n'])
        then some (station, String.mk (rest.take 8))
        else none
    else none
  | _ => none

/-- The message classifier, `re.match(r'([ABCVH]) ([\w]{8})$', message)`. -/
def matchObs (message : String) : Option (Station × String) :=
  matchObsL message.toList

/--
The classification criterion exactly as the specification words it
(§4.2): one uppercase letter of the recognized station set, a single
space, and an 8-character alphanumeric badge identifier, with nothing
else before or after (anchored at both ends).
-/
def specObsFormat (message : String) : Bool :=
  match message.toList with
  | st :: sp :: rest =>
    sp = ' ' && (charToStation st).isSome && rest.length = 8 && rest.all Char.isAlphanum
  | _ => false

/--
The criterion the code actually implements: the badge characters are
word characters (letters, digits or underscore, the regex class `\w`),
and one trailing newline after the badge is tolerated because `$`
matches before a final newline.
-/
def codeObsFormat (message : String) : Bool :=
  match message.toList with
  | st :: sp :: rest =>
    sp = ' ' && (charToStation st).isSome &&
      ((rest.length = 8 && rest.all isWordChar) ||
        (rest.length = 9 && (rest.take 8).all isWordChar && rest.getLast? = some '\n'))
  | _ => false

/--
The badge-and-tail test of the compiled regex, rephrased: exactly eight
word characters followed by nothing, or by one final newline.
-/
theorem badge_tail_iff (rest : List Char) :
    ((rest.take 8).length = 8 ∧ (rest.take 8).all isWordChar ∧
        (rest.drop 8 = [] ∨ rest.drop 8 = ['\n'])) ↔
      ((rest.length = 8 ∧ rest.all isWordChar) ∨
        (rest.length = 9 ∧ (rest.take 8).all isWordChar ∧ rest.getLast? = some '\n')) := by
  have hlt : (rest.take 8).length = min 8 rest.length := List.length_take 8 rest
  have hld : (rest.drop 8).length = rest.length - 8 := List.length_drop 8 rest
  constructor
  · rintro ⟨hlen, hall, htail | htail⟩
    · have hle : rest.length ≤ 8 := by
        rw [htail] at hld
        simp only [List.length_nil] at hld
        omega
      have ht : rest.take 8 = rest := List.take_of_length_le hle
      exact Or.inl ⟨by omega, by rwa [ht] at hall⟩
    · have h9 : rest.length = 9 := by
        rw [htail] at hld
        simp only [List.length_singleton] at hld
        omega
      refine Or.inr ⟨h9, hall, ?_⟩
      have hsplit : rest.take 8 ++ rest.drop 8 = rest := List.take_append_drop 8 rest
      rw [htail] at hsplit
      rw [← hsplit]
      exact List.getLast?_concat _
  · rintro (⟨h8, hall⟩ | ⟨h9, hall, hlast⟩)
    · have ht : rest.take 8 = rest := List.take_of_length_le (by omega)
      refine ⟨by omega, by rwa [ht], Or.inl (List.drop_eq_nil_of_le (by omega))⟩
    · have hdl : (rest.drop 8).length = 1 := by omega
      obtain ⟨c, hc⟩ := List.length_eq_one.mp hdl
      have hsplit : rest.take 8 ++ rest.drop 8 = rest := List.take_append_drop 8 rest
      rw [hc] at hsplit
      have hgl : rest.getLast? = some c := by
        rw [← hsplit]
        exact List.getLast?_concat _
      rw [hlast] at hgl
      injection hgl with hcn
      refine ⟨by omega, hall, Or.inr ?_⟩
      rw [hc, ← hcn]

/--
C4, amended: the classifier is total and classifies a payload as an
observation if and only if it is one recognized station letter, a single
space, and eight word characters (letters, digits or underscore),
followed by nothing or by exactly one trailing newline.
-/
theorem c4_amended (message : String) :
    (matchObs message).isSome = true ↔ codeObsFormat message = true := by
  unfold matchObs codeObsFormat
  rcases hm : message.toList with _ | ⟨st, _ | ⟨sp, rest⟩⟩
  · simp [matchObsL]
  · simp [matchObsL]
  · simp only [matchObsL]
    by_cases hsp : sp = ' '
    · subst hsp
      rw [if_pos rfl]
      rcases hcs : charToStation st with _ | station
      · simp [hcs]
      · simp only [hcs, Option.isSome_some, Bool.true_and, decide_True]
        split
        · rename_i hC
          simp only [Option.isSome_some, true_iff, Bool.or_eq_true, Bool.and_eq_true,
            decide_eq_true_eq]
          have h := (badge_tail_iff rest).mp hC
          tauto
        · rename_i hC
          simp only [Option.isSome_none, Bool.false_eq_true, false_iff, Bool.or_eq_true,
            Bool.and_eq_true, decide_eq_true_eq]
          intro hcon
          exact hC ((badge_tail_iff rest).mpr (by tauto))
    · simp [matchObsL, if_neg hsp, hsp]

/--
C4, claim as frozen, refuted: the payload `"A AAA_AAAA\n"` is classified
as an observation by the code although it is not of the spec's shape —
it has a character after the badge (a trailing newline, which the
regex metacharacter `$` tolerates) and its badge contains an underscore,
which is a `\w` character but not alphanumeric.
-/
theorem c4_counterexample :
    (matchObs (String.mk ['A', ' ', 'A', 'A', 'A', '_', 'A', 'A', 'A', 'A', '\n'])).isSome = true ∧
    specObsFormat (String.mk ['A', ' ', 'A', 'A', 'A', '_', 'A', 'A', 'A', 'A', '\n']) = false := by
  decide

/-- A timestamp in minutes since an arbitrary epoch; its calendar date. -/
def dateOf (t : Int) : Int := t / 1440

/--
One in-progress journey row: the DataFrame
`[[None, session, None, None, None, None, None, '']]` with columns
`ID, Session, A, B, C, V, H, Notes` (logger.py:43-45).  The `ID` column
is carried by the association-list key and only copied into the row at
finalize time (`curr[0] = id`, logger.py:356).
-/
structure Journey where
  session : Int
  a : Option Int
  b : Option Int
  c : Option Int
  v : Option Int
  h : Option Int
  notes : String
deriving DecidableEq, Repr

/-- The defaultdict factory: a blank row for the current session. -/
def freshJourney (session : Int) : Journey :=
  ⟨session, none, none, none, none, none, ""⟩

/-- One row of the `BadgeScans` table (a finalized journey). -/
structure ScanRow where
  id : String
  session : Int
  a : Option Int
  b : Option Int
  c : Option Int
  v : Option Int
  h : Option Int
  notes : String
deriving DecidableEq, Repr

/--
The logger state: session tracking (`current_session`, `last_write`),
the `ongoing` defaultdict as an insertion-ordered association list, the
database tables `Logs` (`rawEvents`) and `BadgeScans` (`badgeScans`),
and the text log files collapsed to one append-only list of lines.
-/
structure LState where
  currentSession : Int
  lastWrite : Int
  ongoing : List (String × Journey)
  rawEvents : List (Int × Int × String)
  badgeScans : List ScanRow
  textLog : List (Int × String)
deriving DecidableEq, Repr

/-- State after `__init__` at time `now`: empty stores, session = today. -/
def initState (now : Int) : LState :=
  ⟨dateOf now, now, [], [], [], []⟩

/-- Dict membership/lookup (`id in self.ongoing`); never creates an entry. -/
def lookupJ : List (String × Journey) → String → Option Journey
  | [], _ => none
  | (i, j) :: rest, id => if i = id then some j else lookupJ rest id

/-- `del self.ongoing[id]`: remove the entry, keeping the others in order. -/
def eraseJ : List (String × Journey) → String → List (String × Journey)
  | [], _ => []
  | (i, j) :: rest, id => if i = id then rest else (i, j) :: eraseJ rest id

/--
`self.ongoing[id]` followed by a mutation: defaultdict `__getitem__`
returns the existing row in place, or appends a fresh row (for the
current session, read when the factory runs) at the end of the dict.
-/
def upsert (m : List (String × Journey)) (id : String) (f : Journey → Journey)
    (sess : Int) : List (String × Journey) :=
  match m with
  | [] => [(id, f (freshJourney sess))]
  | (i, j) :: rest =>
    if i = id then (i, f j) :: rest else (i, j) :: upsert rest id f sess

/-- `self.ongoing[id].loc[0, station] = time`: set one station column. -/
def setStation (j : Journey) (station : Station) (t : Int) : Journey :=
  match station with
  | .A => { j with a := some t }
  | .B => { j with b := some t }
  | .C => { j with c := some t }
  | .V => { j with v := some t }
  | .H => { j with h := some t }

/-- The station column of a journey row. -/
def Journey.slot (j : Journey) : Station → Option Int
  | .A => j.a
  | .B => j.b
  | .C => j.c
  | .V => j.v
  | .H => j.h

/--
`Logger.update_session` (logger.py:227-245): rotate `current_session`
to the observation date when the date differs from the tracked session
and strictly more than one hour has passed since `last_write`
(`(time - self.last_write) / timedelta(hours=1) > 1`).  The method also
renames the text-log files (not modelled) — and it never assigns
`self.last_write`, which is written only by `__init__` and
`add_from_text_log`.
-/
def update_session (s : LState) (t : Int) : LState :=
  if dateOf t ≠ s.currentSession ∧ t - s.lastWrite > 60 then
    { s with currentSession := dateOf t }
  else s

/-- The Python slice `s[:-2]` on a string: drop the last two characters. -/
def pyDropLast2 (s : String) : String :=
  String.mk s.data.dropLast.dropLast

/--
The `BadgeScans` row built by `Logger.finalize` (logger.py:354-358):
the ongoing row with the id filled in and the last two characters
(`', '`) unconditionally removed from `Notes` (`curr[-1] = curr[-1][:-2]`).
-/
def finalizeRow (id : String) (j : Journey) : ScanRow :=
  ⟨id, j.session, j.a, j.b, j.c, j.v, j.h, pyDropLast2 j.notes⟩

/--
`Logger.finalize` (logger.py:345-364): raise
`UserWarning('Trying to finalize id not currently in ongoing.')` when
the id has no ongoing entry (the membership test creates nothing);
otherwise delete the entry and insert the row into `BadgeScans`.
-/
def finalize (s : LState) (id : String) : Except String LState :=
  match lookupJ s.ongoing id with
  | none => .error "Trying to finalize id not currently in ongoing."
  | some j => .ok { s with
      ongoing := eraseJ s.ongoing id
      badgeScans := s.badgeScans ++ [finalizeRow id j] }

/--
The unmatched branch of `update_data` (logger.py:286-289): append the
stripped message plus `', '` to the `Notes` of every ongoing journey.
-/
def broadcastNote (m : List (String × Journey)) (msg : String) :
    List (String × Journey) :=
  m.map fun p => (p.1, { p.2 with notes := p.2.notes ++ msg.trim ++ ", " })

/--
The matched branch of `update_data` (logger.py:291-302): an `A` for an
id already ongoing finalizes the old journey first; then the station
column is set (creating a fresh row if needed); an `H` finalizes
immediately.
-/
def obsStep (s : LState) (station : Station) (id : String) (t : Int) :
    Except String LState :=
  match (if station = .A ∧ (lookupJ s.ongoing id).isSome
      then finalize s id else .ok s) with
  | .error e => .error e
  | .ok s1 =>
    let s2 := { s1 with
      ongoing := upsert s1.ongoing id (fun j => setStation j station t) s1.currentSession }
    if station = .H then finalize s2 id else .ok s2

/-- `Logger.update_data` (logger.py:276-302). -/
def update_data (s : LState) (t : Int) (msg : String) : Except String LState :=
  match matchObs msg with
  | none => .ok { s with ongoing := broadcastNote s.ongoing msg }
  | some (station, id) => obsStep s station id t

/--
One message through the pipeline, in the order of the receive cycle
(logger.py:101-104): `update_session`, `log_to_text_files`,
`log_to_database` (one `Logs` row with the post-rotation session and
the literal payload), then `update_data`.
-/
def processMessage (s : LState) (t : Int) (msg : String) : Except String LState :=
  let s1 := update_session s t
  let s2 := { s1 with textLog := s1.textLog ++ [(t, msg)] }
  let s3 := { s2 with rawEvents := s2.rawEvents ++ [(t, s2.currentSession, msg)] }
  update_data s3 t msg

/-- The loop of `Logger.dump_data`: finalize each id of the snapshot. -/
def dumpIds : LState → List String → Except String LState
  | s, [] => .ok s
  | s, id :: rest =>
    match finalize s id with
    | .error e => .error e
    | .ok s1 => dumpIds s1 rest

/--
`Logger.dump_data` (logger.py:367-375): snapshot the ongoing keys and
finalize every one of them.
-/
def dump_data (s : LState) : Except String LState :=
  dumpIds s (s.ongoing.map Prod.fst)

/-- What one receive-cycle iteration may observe (logger.py:94-111). -/
inductive RecvResult where
  | datagram (msg : String)
  | timeoutExpired
  | failure
deriving DecidableEq, Repr

/--
Dispatch of one receive-cycle iteration (logger.py:94-111): a datagram
is processed by the pipeline; a receive-wait timeout is silently
ignored (`except TimeoutError: pass`); any other exception hits
`raise e.with_traceback()` (logger.py:109), which executes before the
`print` and `self._stop_event.set()` on lines 110-111, so those lines
are dead code and the exception propagates out of `run` — the loop
never reaches `close_udp` or the auto-save `dump_data` on this path.
-/
def receiveCycleStep (s : LState) (t : Int) (r : RecvResult) : Except String LState :=
  match r with
  | .datagram msg => processMessage s t msg
  | .timeoutExpired => .ok s
  | .failure => .error "exception propagates out of run before the stop event is set"

/--
The normal stop path (logger.py:113-116): after the receive cycle ends,
close the socket (not modelled) and, when `auto_save` is set, drain
`ongoing` through `dump_data`.
-/
def stopListening (s : LState) (autoSave : Bool) : Except String LState :=
  if autoSave then dump_data s else .ok s

/-- Processing a sequence of parsed observations for one badge id. -/
def processSeq : LState → String → List (Station × Int) → Except String LState
  | s, _, [] => .ok s
  | s, id, (st, t) :: rest =>
    match obsStep s st id t with
    | .error e => .error e
    | .ok s1 => processSeq s1 id rest

/-! ### Helper lemmas about the state operations -/

theorem update_session_lastWrite (s : LState) (t : Int) :
    (update_session s t).lastWrite = s.lastWrite := by
  unfold update_session
  split <;> rfl

theorem update_session_ongoing (s : LState) (t : Int) :
    (update_session s t).ongoing = s.ongoing := by
  unfold update_session
  split <;> rfl

theorem update_session_rawEvents (s : LState) (t : Int) :
    (update_session s t).rawEvents = s.rawEvents := by
  unfold update_session
  split <;> rfl

theorem update_session_badgeScans (s : LState) (t : Int) :
    (update_session s t).badgeScans = s.badgeScans := by
  unfold update_session
  split <;> rfl

theorem update_session_textLog (s : LState) (t : Int) :
    (update_session s t).textLog = s.textLog := by
  unfold update_session
  split <;> rfl

theorem finalize_ok_of_lookup (s : LState) (id : String) (j : Journey)
    (h : lookupJ s.ongoing id = some j) :
    finalize s id = Except.ok { s with
      ongoing := eraseJ s.ongoing id
      badgeScans := s.badgeScans ++ [finalizeRow id j] } := by
  unfold finalize
  rw [h]

theorem lookupJ_upsert_self (m : List (String × Journey)) (id : String)
    (f : Journey → Journey) (sess : Int) :
    lookupJ (upsert m id f sess) id =
      some (f ((lookupJ m id).getD (freshJourney sess))) := by
  induction m with
  | nil => simp [upsert, lookupJ]
  | cons p rest ih =>
    obtain ⟨i, j⟩ := p
    by_cases hi : i = id
    · subst hi
      simp [upsert, lookupJ]
    · simp [upsert, lookupJ, hi, ih]

theorem upsert_of_lookup_none (m : List (String × Journey)) (id : String)
    (f : Journey → Journey) (sess : Int) (h : lookupJ m id = none) :
    upsert m id f sess = m ++ [(id, f (freshJourney sess))] := by
  induction m with
  | nil => rfl
  | cons p rest ih =>
    obtain ⟨i, j⟩ := p
    by_cases hi : i = id
    · subst hi
      simp [lookupJ] at h
    · simp only [lookupJ, if_neg hi] at h
      simp [upsert, hi, ih h]

theorem lookupJ_eq_none_of_not_mem (m : List (String × Journey)) (id : String)
    (h : id ∉ m.map Prod.fst) : lookupJ m id = none := by
  induction m with
  | nil => rfl
  | cons p rest ih =>
    obtain ⟨i, j⟩ := p
    simp only [List.map_cons, List.mem_cons, not_or] at h
    have hne : ¬ i = id := fun he => h.1 he.symm
    simp only [lookupJ, if_neg hne]
    exact ih h.2

theorem lookupJ_eraseJ_of_nodup (m : List (String × Journey)) (id : String)
    (h : (m.map Prod.fst).Nodup) :
    lookupJ (eraseJ m id) id = none := by
  induction m with
  | nil => rfl
  | cons p rest ih =>
    obtain ⟨i, j⟩ := p
    simp only [List.map_cons, List.nodup_cons] at h
    by_cases hi : i = id
    · subst hi
      simp only [eraseJ, if_pos rfl]
      exact lookupJ_eq_none_of_not_mem rest i h.1
    · simp only [eraseJ, if_neg hi, lookupJ, if_neg hi]
      exact ih h.2

/-! ### C5 — session tracker and the last-write timestamp -/

/--
C5, claim as frozen, refuted: a call of `update_session` that even
rotates the session (observation at minute 2000, a different date, more
than one hour after the initial `last_write` of minute 0) still leaves
the tracked last-write timestamp at its initial value 0 instead of
setting it to the observation time 2000 — `update_session` contains no
assignment to `last_write`.
-/
theorem c5_counterexample :
    (update_session (initState 0) 2000).currentSession = dateOf 2000 ∧
    (update_session (initState 0) 2000).lastWrite = 0 ∧
    (2000 : Int) ≠ 0 := by
  decide

/--
C5, amended: no call of `update_session` — no-op or rotating — ever
changes the tracked last-write timestamp; it keeps the value set at
initialization (or by the replay reset), so the one-hour debounce
window is measured from that fixed point, not from the most recent
observation.
-/
theorem c5_amended (s : LState) (t : Int) :
    (update_session s t).lastWrite = s.lastWrite := by
  unfold update_session
  split <;> rfl

/-! ### C7 — finalize on an id that is not in progress -/

/--
C7, confirmed: finalizing a badge id with no in-progress journey raises
the invariant-violation `UserWarning` — the membership test neither
creates a lazy record nor touches any store, and no success state is
produced (the error is raised before any mutation).
-/
theorem c7_finalize_missing_fails (s : LState) (id : String)
    (h : lookupJ s.ongoing id = none) :
    finalize s id =
      Except.error "Trying to finalize id not currently in ongoing." ∧
    ∀ s2, finalize s id ≠ Except.ok s2 := by
  unfold finalize
  rw [h]
  exact ⟨rfl, fun _ hc => Except.noConfusion hc⟩

/-- Witness for C7 at the empty initial state and badge `"AAAAAAAA"`. -/
theorem c7_witness :
    lookupJ (initState 0).ongoing "AAAAAAAA" = none ∧
    finalize (initState 0) "AAAAAAAA" =
      Except.error "Trying to finalize id not currently in ongoing." :=
  ⟨rfl, (c7_finalize_missing_fails (initState 0) "AAAAAAAA" rfl).1⟩

/-! ### C1 — a non-timeout error in the receive cycle -/

/--
C1, divergence witness: on any receive-cycle outcome other than a
datagram or the expected timeout, the embedded dispatch of
`Logger.run` propagates the exception (the `raise` on logger.py:109
runs before the dead code on lines 110-111 that would set the stop
event), so the iteration never yields a state in which the transport
was closed and the ongoing journeys drained — contrary to the claim
that the loop sets the stop condition and shuts down cleanly.
-/
theorem c1_failure_propagates :
    receiveCycleStep (initState 0) 0 RecvResult.failure =
      Except.error "exception propagates out of run before the stop event is set" ∧
    ∀ s2, receiveCycleStep (initState 0) 0 RecvResult.failure ≠ Except.ok s2 :=
  ⟨rfl, fun _ hc => Except.noConfusion hc⟩

theorem finalize_ok_fields (s : LState) (id : String) (s2 : LState)
    (h : finalize s id = Except.ok s2) :
    s2.currentSession = s.currentSession ∧ s2.lastWrite = s.lastWrite ∧
    s2.rawEvents = s.rawEvents ∧ s2.textLog = s.textLog := by
  unfold finalize at h
  cases hl : lookupJ s.ongoing id with
  | none =>
    rw [hl] at h
    cases h
  | some j =>
    rw [hl] at h
    injection h with h2
    subst h2
    exact ⟨rfl, rfl, rfl, rfl⟩

theorem obsStep_fields (s : LState) (station : Station) (id : String) (t : Int) :
    ∃ s2, obsStep s station id t = Except.ok s2 ∧
      s2.currentSession = s.currentSession ∧ s2.lastWrite = s.lastWrite ∧
      s2.rawEvents = s.rawEvents ∧ s2.textLog = s.textLog := by
  unfold obsStep
  split
  · rename_i e heq
    exfalso
    split at heq
    · rename_i hA
      obtain ⟨j, hj⟩ := Option.isSome_iff_exists.mp hA.2
      rw [finalize_ok_of_lookup s id j hj] at heq
      cases heq
    · cases heq
  · rename_i s1 heq
    have h1 : s1.currentSession = s.currentSession ∧ s1.lastWrite = s.lastWrite ∧
        s1.rawEvents = s.rawEvents ∧ s1.textLog = s.textLog := by
      split at heq
      · exact finalize_ok_fields s id s1 heq
      · injection heq with h2
        subst h2
        exact ⟨rfl, rfl, rfl, rfl⟩
    obtain ⟨hc, hw, hr, hx⟩ := h1
    split
    · rw [finalize_ok_of_lookup _ id _
        (lookupJ_upsert_self s1.ongoing id (fun j => setStation j station t) s1.currentSession)]
      exact ⟨_, rfl, hc, hw, hr, hx⟩
    · exact ⟨_, rfl, hc, hw, hr, hx⟩

theorem update_data_fields (s : LState) (t : Int) (msg : String) :
    ∃ s2, update_data s t msg = Except.ok s2 ∧
      s2.currentSession = s.currentSession ∧ s2.lastWrite = s.lastWrite ∧
      s2.rawEvents = s.rawEvents ∧ s2.textLog = s.textLog := by
  unfold update_data
  cases hm : matchObs msg with
  | none => exact ⟨_, rfl, rfl, rfl, rfl, rfl⟩
  | some v =>
    obtain ⟨station, bid⟩ := v
    exact obsStep_fields s station bid t

/-! ### C8 — one raw-event record per message -/

/--
C8, confirmed: every message through the receive-cycle pipeline —
whatever its parse outcome — appends exactly one row to the `Logs`
table, holding the message timestamp, the (possibly just rotated)
session, and the literal payload; the append happens before
`update_data` runs, and the station state machine never touches the
raw-event table (the final table is the old one plus that single row).
One line is likewise appended to each text log.
-/
theorem c8_raw_event_exactly_once (s : LState) (t : Int) (msg : String) :
    ∃ s2, processMessage s t msg = Except.ok s2 ∧
      s2.rawEvents = s.rawEvents ++ [(t, (update_session s t).currentSession, msg)] ∧
      s2.textLog = s.textLog ++ [(t, msg)] := by
  unfold processMessage
  obtain ⟨s2, hok, _, _, hre, htl⟩ := update_data_fields
    { update_session s t with
      textLog := (update_session s t).textLog ++ [(t, msg)]
      rawEvents := (update_session s t).rawEvents ++ [(t, (update_session s t).currentSession, msg)] }
    t msg
  refine ⟨s2, hok, ?_, ?_⟩
  · rw [hre]
    show (update_session s t).rawEvents ++ [(t, (update_session s t).currentSession, msg)] =
      s.rawEvents ++ [(t, (update_session s t).currentSession, msg)]
    rw [update_session_rawEvents]
  · rw [htl]
    show (update_session s t).textLog ++ [(t, msg)] = s.textLog ++ [(t, msg)]
    rw [update_session_textLog]

/-! ### C9 — the auto-save drain on stop -/

theorem dumpIds_spec (m : List (String × Journey)) :
    ∀ s : LState, s.ongoing = m →
      ∃ s2, dumpIds s (m.map Prod.fst) = Except.ok s2 ∧ s2.ongoing = [] ∧
        s2.badgeScans = s.badgeScans ++ m.map (fun p => finalizeRow p.1 p.2) := by
  induction m with
  | nil =>
    intro s hs
    exact ⟨s, rfl, hs, by simp⟩
  | cons p rest ih =>
    intro s hs
    obtain ⟨i, j⟩ := p
    have hl : lookupJ s.ongoing i = some j := by
      rw [hs]
      simp [lookupJ]
    have her : eraseJ s.ongoing i = rest := by
      rw [hs]
      simp [eraseJ]
    obtain ⟨s2, hok2, hong2, hbs2⟩ := ih
      { s with ongoing := eraseJ s.ongoing i
               badgeScans := s.badgeScans ++ [finalizeRow i j] }
      (by simpa using her)
    refine ⟨s2, ?_, hong2, ?_⟩
    · simp only [List.map_cons, dumpIds, finalize_ok_of_lookup s i j hl]
      exact hok2
    · rw [hbs2]
      simp [List.append_assoc]

/--
C9, confirmed: stopping the loop with auto-save enabled drains the
in-progress store — `dump_data` finalizes every remaining ongoing
journey, in insertion order, appending one completed `BadgeScans` row
per journey, and leaves the in-progress store empty, before the loop
reports itself stopped.
-/
theorem c9_stop_autosave_drains (s : LState) :
    ∃ s2, stopListening s true = Except.ok s2 ∧ s2.ongoing = [] ∧
      s2.badgeScans = s.badgeScans ++ s.ongoing.map (fun p => finalizeRow p.1 p.2) := by
  have h := dumpIds_spec s.ongoing s rfl
  simpa [stopListening, dump_data] using h

/-! ### C6 — unmatched messages broadcast to every open journey -/

/--
C6, confirmed: an unmatched message appends its trimmed text (plus the
`', '` separator) to the notes of every in-progress journey, alters no
other journey field and no completed record, creates no journey when
none is open, and still yields its single raw-event record.
-/
theorem c6_unmatched_broadcast (s : LState) (t : Int) (msg : String)
    (h : matchObs msg = none) :
    ∃ s2, processMessage s t msg = Except.ok s2 ∧
      s2.ongoing = s.ongoing.map
        (fun p => (p.1, { p.2 with notes := p.2.notes ++ msg.trim ++ ", " })) ∧
      s2.badgeScans = s.badgeScans ∧
      (s.ongoing = [] → s2.ongoing = []) ∧
      s2.rawEvents = s.rawEvents ++ [(t, (update_session s t).currentSession, msg)] := by
  unfold processMessage update_data
  rw [h]
  refine ⟨_, rfl, ?_, ?_, ?_, ?_⟩
  · show broadcastNote (update_session s t).ongoing msg = _
    unfold broadcastNote
    rw [update_session_ongoing]
  · show (update_session s t).badgeScans = s.badgeScans
    exact update_session_badgeScans s t
  · intro he
    show broadcastNote (update_session s t).ongoing msg = []
    rw [update_session_ongoing, he]
    rfl
  · show (update_session s t).rawEvents ++ [(t, (update_session s t).currentSession, msg)] = _
    rw [update_session_rawEvents]

/-! ### C3 — a second A-sighting restarts the journey -/

/--
C3, confirmed: an `A` observation for a badge id with an open journey
first finalizes that journey into its own completed `BadgeScans` row and
then opens a fresh journey whose only filled slot is `A` with the new
observation time — the two journeys are distinct records, never merged.
-/
theorem c3_second_A_restarts (s : LState) (id : String) (j : Journey) (t : Int)
    (hnd : (s.ongoing.map Prod.fst).Nodup)
    (hj : lookupJ s.ongoing id = some j) :
    obsStep s Station.A id t = Except.ok { s with
      ongoing := eraseJ s.ongoing id ++
        [(id, { freshJourney s.currentSession with a := some t })]
      badgeScans := s.badgeScans ++ [finalizeRow id j] } := by
  unfold obsStep
  rw [if_pos ⟨rfl, by rw [hj]; rfl⟩, finalize_ok_of_lookup s id j hj]
  simp only [upsert_of_lookup_none _ _ _ _ (lookupJ_eraseJ_of_nodup s.ongoing id hnd)]
  rfl

/-- Sample journey and one-entry logger state used by the witnesses. -/
def wJourney : Journey := ⟨0, none, some 1, none, none, none, ""⟩

/-- A state with exactly one open journey for badge `"AAAAAAAA"`. -/
def wState : LState := ⟨0, 0, [("AAAAAAAA", wJourney)], [], [], []⟩

/-- Witness for C3 at a concrete one-journey state. -/
theorem c3_witness :
    ((wState.ongoing.map Prod.fst).Nodup ∧
      lookupJ wState.ongoing "AAAAAAAA" = some wJourney) ∧
    obsStep wState Station.A "AAAAAAAA" 7 = Except.ok { wState with
      ongoing := eraseJ wState.ongoing "AAAAAAAA" ++
        [("AAAAAAAA", { freshJourney wState.currentSession with a := some 7 })]
      badgeScans := wState.badgeScans ++ [finalizeRow "AAAAAAAA" wJourney] } :=
  ⟨⟨by decide, by decide⟩,
    c3_second_A_restarts wState "AAAAAAAA" wJourney 7 (by decide) (by decide)⟩

/-- Witness for C6 at a concrete one-journey state and payload `"hello"`. -/
theorem c6_witness :
    matchObs "hello" = none ∧
    ∃ s2, processMessage wState 5 "hello" = Except.ok s2 ∧
      s2.ongoing = wState.ongoing.map
        (fun p => (p.1, { p.2 with notes := p.2.notes ++ "hello".trim ++ ", " })) ∧
      s2.badgeScans = wState.badgeScans ∧
      (wState.ongoing = [] → s2.ongoing = []) ∧
      s2.rawEvents = wState.rawEvents ++
        [(5, (update_session wState 5).currentSession, "hello")] :=
  ⟨by decide, c6_unmatched_broadcast wState 5 "hello" (by decide)⟩

/-! ### C10 — the Notes separator invariant -/

/-- A notes string is empty or ends with the two-character separator. -/
def endsWithSep (n : String) : Prop :=
  n = "" ∨ ∃ x : String, n = x ++ ", "

/-- Invariant: every ongoing journey's notes is empty or ends in `', '`. -/
def NotesWF (s : LState) : Prop :=
  ∀ p ∈ s.ongoing, endsWithSep p.2.notes

/-- Notes as `update_data` builds them: each fragment followed by `', '`. -/
def concatFrags : List String → String
  | [] => ""
  | f :: rest => (f ++ ", ") ++ concatFrags rest

/-- The `', '`-separated join of the fragments (no trailing separator). -/
def sepJoin : List String → String
  | [] => ""
  | [f] => f
  | f :: g :: rest => (f ++ ", ") ++ sepJoin (g :: rest)

theorem str_data_append (a b : String) : (a ++ b).data = a.data ++ b.data := by
  cases a
  cases b
  rfl

theorem str_append_assoc (a b c : String) : (a ++ b) ++ c = a ++ (b ++ c) := by
  cases a
  cases b
  cases c
  exact congrArg String.mk (List.append_assoc _ _ _)

theorem str_append_nil (a : String) : a ++ "" = a := by
  cases a
  exact congrArg String.mk (List.append_nil _)

theorem str_nil_append (a : String) : "" ++ a = a := by
  cases a
  exact congrArg String.mk (List.nil_append _)

theorem pyDropLast2_append_sep (x : String) : pyDropLast2 (x ++ ", ") = x := by
  unfold pyDropLast2
  rw [str_data_append]
  rw [show (", " : String).data = [',', ' '] from rfl]
  have h1 : x.data ++ [',', ' '] = (x.data ++ [',']) ++ [' '] := by simp
  rw [h1, List.dropLast_concat, List.dropLast_concat]

theorem concatFrags_snoc (fs : List String) (f : String) :
    (concatFrags fs ++ f) ++ ", " = concatFrags (fs ++ [f]) := by
  induction fs with
  | nil =>
    show (concatFrags [] ++ f) ++ ", " = (f ++ ", ") ++ concatFrags []
    rw [show concatFrags [] = "" from rfl, str_nil_append, str_append_nil]
  | cons g rest ih =>
    show (((g ++ ", ") ++ concatFrags rest) ++ f) ++ ", " =
      (g ++ ", ") ++ concatFrags (rest ++ [f])
    rw [← ih, str_append_assoc ((g ++ ", ")) (concatFrags rest) f,
      str_append_assoc ((g ++ ", ")) (concatFrags rest ++ f) ", "]

theorem concatFrags_cons_eq (rest : List String) :
    ∀ f, concatFrags (f :: rest) = sepJoin (f :: rest) ++ ", " := by
  induction rest with
  | nil =>
    intro f
    show (f ++ ", ") ++ concatFrags [] = sepJoin [f] ++ ", "
    rw [show concatFrags [] = "" from rfl, str_append_nil]
    rfl
  | cons g rest2 ih =>
    intro f
    show (f ++ ", ") ++ concatFrags (g :: rest2) = sepJoin (f :: g :: rest2) ++ ", "
    rw [ih g]
    rw [show sepJoin (f :: g :: rest2) = (f ++ ", ") ++ sepJoin (g :: rest2) from rfl]
    simp only [str_append_assoc]

theorem pyDropLast2_concatFrags (fs : List String) :
    pyDropLast2 (concatFrags fs) = sepJoin fs := by
  cases fs with
  | nil => rfl
  | cons f rest =>
    rw [concatFrags_cons_eq rest f, pyDropLast2_append_sep]

theorem setStation_notes (j : Journey) (st : Station) (t : Int) :
    (setStation j st t).notes = j.notes := by
  cases st <;> rfl

theorem mem_eraseJ (m : List (String × Journey)) (id : String) :
    ∀ p ∈ eraseJ m id, p ∈ m := by
  induction m with
  | nil =>
    intro p hp
    cases hp
  | cons q rest ih =>
    obtain ⟨i, j⟩ := q
    intro p hp
    by_cases hi : i = id
    · simp only [eraseJ, if_pos hi] at hp
      exact List.mem_cons_of_mem _ hp
    · simp only [eraseJ, if_neg hi] at hp
      rcases List.mem_cons.mp hp with h | h
      · exact h ▸ List.mem_cons_self _ _
      · exact List.mem_cons_of_mem _ (ih p h)

theorem notes_upsert (m : List (String × Journey)) (id : String) (station : Station)
    (t : Int) (sess : Int) (h : ∀ p ∈ m, endsWithSep p.2.notes) :
    ∀ p ∈ upsert m id (fun j => setStation j station t) sess, endsWithSep p.2.notes := by
  induction m with
  | nil =>
    intro p hp
    have hp2 : p = (id, setStation (freshJourney sess) station t) := by
      simpa [upsert] using hp
    subst hp2
    exact Or.inl (setStation_notes _ _ _)
  | cons q rest ih =>
    obtain ⟨i, j⟩ := q
    intro p hp
    by_cases hi : i = id
    · simp only [upsert, if_pos hi] at hp
      rcases List.mem_cons.mp hp with rfl | hmem
      · have : (setStation j station t).notes = j.notes := setStation_notes j station t
        show endsWithSep (setStation j station t).notes
        rw [this]
        exact h (i, j) (List.mem_cons_self _ _)
      · exact h p (List.mem_cons_of_mem _ hmem)
    · simp only [upsert, if_neg hi] at hp
      rcases List.mem_cons.mp hp with rfl | hmem
      · exact h (i, j) (List.mem_cons_self _ _)
      · exact ih (fun q hq => h q (List.mem_cons_of_mem _ hq)) p hmem

theorem finalize_ok_ongoing (s : LState) (id : String) (s2 : LState)
    (h : finalize s id = Except.ok s2) : s2.ongoing = eraseJ s.ongoing id := by
  unfold finalize at h
  cases hl : lookupJ s.ongoing id with
  | none =>
    rw [hl] at h
    cases h
  | some j =>
    rw [hl] at h
    injection h with h2
    subst h2
    rfl

theorem notesWF_obsStep (s : LState) (station : Station) (id : String) (t : Int)
    (s2 : LState) (h : ∀ p ∈ s.ongoing, endsWithSep p.2.notes)
    (hok : obsStep s station id t = Except.ok s2) :
    ∀ p ∈ s2.ongoing, endsWithSep p.2.notes := by
  unfold obsStep at hok
  split at hok
  · cases hok
  · rename_i s1 heq
    have h1 : ∀ p ∈ s1.ongoing, endsWithSep p.2.notes := by
      split at heq
      · rw [finalize_ok_ongoing s id s1 heq]
        intro p hp
        exact h p (mem_eraseJ s.ongoing id p hp)
      · injection heq with h2
        subst h2
        exact h
    split at hok
    · rw [finalize_ok_ongoing _ id s2 hok]
      intro p hp
      exact notes_upsert s1.ongoing id station t s1.currentSession h1 p
        (mem_eraseJ _ id p hp)
    · injection hok with h2
      subst h2
      exact notes_upsert s1.ongoing id station t s1.currentSession h1

theorem notesWF_update_data (s : LState) (t : Int) (msg : String) (s2 : LState)
    (h : ∀ p ∈ s.ongoing, endsWithSep p.2.notes)
    (hok : update_data s t msg = Except.ok s2) :
    ∀ p ∈ s2.ongoing, endsWithSep p.2.notes := by
  unfold update_data at hok
  cases hm : matchObs msg with
  | none =>
    rw [hm] at hok
    injection hok with h2
    subst h2
    intro p hp
    obtain ⟨q, hq, rfl⟩ := List.mem_map.mp hp
    exact Or.inr ⟨q.2.notes ++ msg.trim, rfl⟩
  | some v =>
    rw [hm] at hok
    obtain ⟨station, bid⟩ := v
    exact notesWF_obsStep s station bid t s2 h hok

theorem notesWF_processMessage (s : LState) (t : Int) (msg : String) (s2 : LState)
    (h : ∀ p ∈ s.ongoing, endsWithSep p.2.notes)
    (hok : processMessage s t msg = Except.ok s2) :
    ∀ p ∈ s2.ongoing, endsWithSep p.2.notes := by
  unfold processMessage at hok
  refine notesWF_update_data _ t msg s2 ?_ hok
  show ∀ p ∈ (update_session s t).ongoing, endsWithSep p.2.notes
  rw [update_session_ongoing]
  exact h

/--
C10, confirmed: a fresh logger state satisfies the notes invariant —
every ongoing journey's `Notes` is empty or ends with `', '` — and every
pipeline step preserves it; the note appends of `update_data` build
exactly `concatFrags` of the trimmed fragments, and on such a notes
string the unconditional two-character cut of `finalize` returns
precisely the `', '`-separated join of the fragments (empty when there
are none).
-/
theorem c10_notes_separator_invariant :
    (∀ now, NotesWF (initState now)) ∧
    (∀ s t msg s2, NotesWF s → processMessage s t msg = Except.ok s2 → NotesWF s2) ∧
    (∀ fs f, (concatFrags fs ++ f) ++ ", " = concatFrags (fs ++ [f])) ∧
    (∀ id j fs, j.notes = concatFrags fs → (finalizeRow id j).notes = sepJoin fs) := by
  refine ⟨?_, ?_, ?_, ?_⟩
  · intro now p hp
    cases hp
  · intro s t msg s2 h hok
    exact notesWF_processMessage s t msg s2 h hok
  · exact concatFrags_snoc
  · intro id j fs hj
    show pyDropLast2 j.notes = sepJoin fs
    rw [hj, pyDropLast2_concatFrags]

/-- Witness for C10 at a concrete state, message, and fragment list. -/
theorem c10_witness :
    NotesWF (⟨0, 0, [("AAAAAAAA", ⟨0, none, some 5, none, none, none, ""⟩)],
        [(5, 0, "B AAAAAAAA")], [], [(5, "B AAAAAAAA")]⟩ : LState) ∧
    (finalizeRow "AAAAAAAA" ⟨0, none, none, none, none, none,
        concatFrags ["a", "b"]⟩).notes = sepJoin ["a", "b"] :=
  ⟨c10_notes_separator_invariant.2.1 wState 5 "B AAAAAAAA"
      ⟨0, 0, [("AAAAAAAA", ⟨0, none, some 5, none, none, none, ""⟩)],
        [(5, 0, "B AAAAAAAA")], [], [(5, "B AAAAAAAA")]⟩
      (by intro p hp
          have hp2 : p = ("AAAAAAAA", wJourney) := by simpa [wState] using hp
          subst hp2
          exact Or.inl rfl)
      rfl,
    c10_notes_separator_invariant.2.2.2 "AAAAAAAA"
      ⟨0, none, none, none, none, none, concatFrags ["a", "b"]⟩ ["a", "b"] rfl⟩

/-! ### C2 — single-badge sequences ending in H -/

/-- The timestamp of the last observation sent for a station, if any. -/
def lastObs (st : Station) (seq : List (Station × Int)) : Option Int :=
  ((seq.filter fun x => decide (x.1 = st)).map Prod.snd).getLast?

/-- First-some choice on optional timestamps. -/
def optOr (a b : Option Int) : Option Int :=
  match a with
  | some t => some t
  | none => b

/-- The journey row after applying a run of station observations. -/
def foldStations (j : Journey) (p : List (Station × Int)) : Journey :=
  p.foldl (fun j2 x => setStation j2 x.1 x.2) j

/--
The property C2 asserts of a single-badge observation sequence whose
last element is `H`, processed from a fresh logger state: some completed
row has a non-empty `H` slot, a non-empty `A` slot whenever an `A` was
sent, and `B`/`C`/`V` slots equal to the last timestamp sent for that
station (unset when never sent); and the badge id is gone from the
in-progress store.
-/
@[reducible] def c2ClaimProp (id : String) (seq : List (Station × Int)) : Prop :=
  match processSeq (initState 0) id seq with
  | .error _ => False
  | .ok s2 =>
    (∃ row ∈ s2.badgeScans,
      row.h ≠ none ∧
      (Station.A ∈ seq.map Prod.fst → row.a ≠ none) ∧
      row.b = lastObs Station.B seq ∧
      row.c = lastObs Station.C seq ∧
      row.v = lastObs Station.V seq) ∧
    lookupJ s2.ongoing id = none

/--
C2, claim as frozen, refuted: for the sequence `B@1, A@2, H@3` the mid-
sequence `A` finalizes the journey holding the `B` observation and opens
a fresh one, so the run produces two completed rows — one with `B` set
but no `H`, one with `A` and `H` set but `B` unset — and no completed
row carries both the `H` timestamp and the last-sent `B` timestamp.
-/
theorem c2_counterexample :
    ¬ c2ClaimProp "AAAAAAAA" [(Station.B, 1), (Station.A, 2), (Station.H, 3)] := by
  unfold c2ClaimProp
  rw [show processSeq (initState 0) "AAAAAAAA"
        [(Station.B, 1), (Station.A, 2), (Station.H, 3)] =
      Except.ok ⟨0, 0, [], [],
        [⟨"AAAAAAAA", 0, none, some 1, none, none, none, ""⟩,
          ⟨"AAAAAAAA", 0, some 2, none, none, none, some 3, ""⟩], []⟩ from rfl]
  decide

theorem upsert_cons_self (id : String) (j : Journey) (rest : List (String × Journey))
    (f : Journey → Journey) (sess : Int) :
    upsert ((id, j) :: rest) id f sess = (id, f j) :: rest := by
  simp [upsert]

theorem lookupJ_cons_self (id : String) (j : Journey) (rest : List (String × Journey)) :
    lookupJ ((id, j) :: rest) id = some j := by
  simp [lookupJ]

theorem eraseJ_cons_self (id : String) (j : Journey) (rest : List (String × Journey)) :
    eraseJ ((id, j) :: rest) id = rest := by
  simp [eraseJ]

theorem obsStep_no_prefinalize (s : LState) (st : Station) (id : String) (t : Int)
    (hc : ¬ (st = Station.A ∧ (lookupJ s.ongoing id).isSome = true))
    (hH : st ≠ Station.H) :
    obsStep s st id t = Except.ok { s with
      ongoing := upsert s.ongoing id (fun j2 => setStation j2 st t) s.currentSession } := by
  have h1 : obsStep s st id t =
      (if st = Station.H
        then finalize { s with
          ongoing := upsert s.ongoing id (fun j2 => setStation j2 st t) s.currentSession } id
        else Except.ok { s with
          ongoing := upsert s.ongoing id (fun j2 => setStation j2 st t) s.currentSession }) := by
    unfold obsStep
    rw [if_neg hc]
  rw [h1, if_neg hH]

theorem obsStep_H_eq (s : LState) (id : String) (t : Int)
    (hc : ¬ (Station.H = Station.A ∧ (lookupJ s.ongoing id).isSome = true)) :
    obsStep s Station.H id t = finalize { s with
      ongoing := upsert s.ongoing id (fun j2 => setStation j2 Station.H t) s.currentSession } id := by
  have h1 : obsStep s Station.H id t =
      (if (Station.H : Station) = Station.H
        then finalize { s with
          ongoing := upsert s.ongoing id (fun j2 => setStation j2 Station.H t) s.currentSession } id
        else Except.ok { s with
          ongoing := upsert s.ongoing id (fun j2 => setStation j2 Station.H t) s.currentSession }) := by
    unfold obsStep
    rw [if_neg hc]
  rw [h1, if_pos rfl]

theorem processSeq_no_finalize (p : List (Station × Int)) :
    ∀ (s : LState) (id : String) (j : Journey),
      (∀ x ∈ p, x.1 ≠ Station.A ∧ x.1 ≠ Station.H) →
      s.ongoing = [(id, j)] →
      ∃ s2, processSeq s id p = Except.ok s2 ∧
        s2.ongoing = [(id, foldStations j p)] ∧
        s2.badgeScans = s.badgeScans ∧ s2.currentSession = s.currentSession := by
  induction p with
  | nil =>
    intro s id j _ hong
    exact ⟨s, rfl, by rw [hong]; rfl, rfl, rfl⟩
  | cons x rest ih =>
    intro s id j hcond hong
    obtain ⟨st, t⟩ := x
    have hst := hcond (st, t) (List.mem_cons_self _ _)
    have hobs := obsStep_no_prefinalize s st id t (fun hca => hst.1 hca.1) hst.2
    have hup : upsert s.ongoing id (fun j2 => setStation j2 st t) s.currentSession =
        [(id, setStation j st t)] := by
      rw [hong, upsert_cons_self]
    obtain ⟨s2, hok2, hong2, hbs2, hcs2⟩ := ih
      { s with ongoing := upsert s.ongoing id (fun j2 => setStation j2 st t) s.currentSession }
      id (setStation j st t)
      (fun y hy => hcond y (List.mem_cons_of_mem _ hy))
      hup
    refine ⟨s2, ?_, hong2, hbs2, hcs2⟩
    show (match obsStep s st id t with
      | .error e => .error e
      | .ok s1 => processSeq s1 id rest) = Except.ok s2
    rw [hobs]
    exact hok2

theorem optOr_none (a : Option Int) : optOr a none = a := by
  cases a <;> rfl

theorem slot_setStation (j : Journey) (st st2 : Station) (t : Int) :
    (setStation j st t).slot st2 = if st2 = st then some t else j.slot st2 := by
  cases st <;> cases st2 <;> simp [setStation, Journey.slot]

theorem lastObs_cons (st : Station) (x : Station × Int) (rest : List (Station × Int)) :
    lastObs st (x :: rest) =
      optOr (lastObs st rest) (if x.1 = st then some x.2 else none) := by
  unfold lastObs optOr
  by_cases hx : x.1 = st
  · rw [List.filter_cons_of_pos (by simpa using hx), List.map_cons, if_pos hx]
    cases hM : (List.filter (fun y => decide (y.1 = st)) rest).map Prod.snd with
    | nil => simp
    | cons b l =>
      rw [List.getLast?_cons_cons]
      cases hg : (b :: l).getLast? with
      | none => simp at hg
      | some a => rfl
  · rw [List.filter_cons_of_neg (by simpa using hx), if_neg hx]
    cases hg : ((List.filter (fun y => decide (y.1 = st)) rest).map Prod.snd).getLast? with
    | none => rfl
    | some a => rfl

theorem slot_foldStations (p : List (Station × Int)) :
    ∀ (j : Journey) (st : Station),
      (foldStations j p).slot st = optOr (lastObs st p) (j.slot st) := by
  induction p with
  | nil =>
    intro j st
    rfl
  | cons x rest ih =>
    intro j st
    show (foldStations (setStation j x.1 x.2) rest).slot st = _
    rw [ih (setStation j x.1 x.2) st, slot_setStation, lastObs_cons]
    cases hL : lastObs st rest with
    | some u => rfl
    | none =>
      by_cases hx : x.1 = st
      · rw [if_pos hx.symm, if_pos hx]
        rfl
      · rw [if_neg (fun h => hx h.symm), if_neg hx]
        rfl

theorem processSeq_append (p q : List (Station × Int)) :
    ∀ (s : LState) (id : String),
      processSeq s id (p ++ q) =
        (match processSeq s id p with
          | .error e => .error e
          | .ok s1 => processSeq s1 id q) := by
  induction p with
  | nil =>
    intro s id
    rfl
  | cons x rest ih =>
    intro s id
    obtain ⟨st, t⟩ := x
    show (match obsStep s st id t with
      | Except.error e => Except.error e
      | Except.ok s1 => processSeq s1 id (rest ++ q)) =
      (match (match obsStep s st id t with
        | Except.error e => Except.error e
        | Except.ok s1 => processSeq s1 id rest) with
        | Except.error e => Except.error e
        | Except.ok s1 => processSeq s1 id q)
    cases obsStep s st id t with
    | error e => rfl
    | ok s1 => exact ih s1 id

theorem lastObs_isSome_of_mem (st : Station) (p : List (Station × Int))
    (h : st ∈ p.map Prod.fst) : (lastObs st p).isSome = true := by
  obtain ⟨x, hx, hx1⟩ := List.mem_map.mp h
  unfold lastObs
  rw [List.getLast?_isSome]
  have hmem : x.2 ∈ (List.filter (fun y => decide (y.1 = st)) p).map Prod.snd :=
    List.mem_map_of_mem _ (List.mem_filter.mpr ⟨hx, by simp [hx1]⟩)
  exact List.ne_nil_of_mem hmem

theorem lastObs_concat_ne (st : Station) (p : List (Station × Int)) (x : Station × Int)
    (hx : x.1 ≠ st) : lastObs st (p ++ [x]) = lastObs st p := by
  unfold lastObs
  rw [List.filter_append,
    show List.filter (fun y => decide (y.1 = st)) [x] = [] from by simp [hx],
    List.append_nil]

/--
C2, amended: for a single-badge sequence that forms one journey — `H`
occurs only as the final observation, and `A`, if present at all, only
as the first — processing from a fresh state completes exactly that
journey: a completed row has `H` set, has `A` set whenever an `A` was
sent, carries in `B`/`C`/`V` the last timestamp sent for that station
(unset if never sent), and the badge id is no longer in progress.
(The frozen claim, quantified over all sequences ending in `H`, fails
when an `A` restarts an open journey mid-sequence.)
-/
theorem c2_amended (id : String) (mid : List (Station × Int)) (tH : Int)
    (hH : ∀ x ∈ mid, x.1 ≠ Station.H)
    (hA : ∀ x ∈ mid.tail, x.1 ≠ Station.A) :
    c2ClaimProp id (mid ++ [(Station.H, tH)]) := by
  obtain ⟨sMid, hProcMid, hOng, hCS⟩ :
      ∃ sMid, processSeq (initState 0) id mid = Except.ok sMid ∧
        ((mid = [] ∧ sMid.ongoing = []) ∨
          sMid.ongoing = [(id, foldStations (freshJourney 0) mid)]) ∧
        sMid.currentSession = 0 := by
    cases mid with
    | nil => exact ⟨initState 0, rfl, Or.inl ⟨rfl, rfl⟩, rfl⟩
    | cons x rest =>
      obtain ⟨st, t⟩ := x
      have hst : st ≠ Station.H := hH (st, t) (List.mem_cons_self _ _)
      have hobs := obsStep_no_prefinalize (initState 0) st id t
        (fun hc => Bool.noConfusion hc.2) hst
      obtain ⟨s2, hok2, hong2, _, hcs2⟩ := processSeq_no_finalize rest
        { initState 0 with ongoing := (upsert (initState 0).ongoing id
            (fun j2 => setStation j2 st t) (initState 0).currentSession) }
        id (setStation (freshJourney 0) st t)
        (fun y hy => ⟨hA y hy, hH y (List.mem_cons_of_mem _ hy)⟩)
        rfl
      refine ⟨s2, ?_, Or.inr hong2, hcs2⟩
      show (match obsStep (initState 0) st id t with
        | Except.error e => Except.error e
        | Except.ok s1 => processSeq s1 id rest) = Except.ok s2
      rw [hobs]
      exact hok2
  have hupsert : upsert sMid.ongoing id (fun j2 => setStation j2 Station.H tH)
      sMid.currentSession
      = [(id, setStation (foldStations (freshJourney 0) mid) Station.H tH)] := by
    rcases hOng with ⟨hmid, hempty⟩ | hsing
    · subst hmid
      rw [hempty, hCS]
      rfl
    · rw [hsing, upsert_cons_self]
  have hlook : lookupJ (upsert sMid.ongoing id
      (fun j2 => setStation j2 Station.H tH) sMid.currentSession) id
      = some (setStation (foldStations (freshJourney 0) mid) Station.H tH) := by
    rw [hupsert, lookupJ_cons_self]
  have hHstep := obsStep_H_eq sMid id tH (fun hc => Station.noConfusion hc.1)
  have hfin := finalize_ok_of_lookup
    { sMid with ongoing := (upsert sMid.ongoing id
        (fun j2 => setStation j2 Station.H tH) sMid.currentSession) }
    id (setStation (foldStations (freshJourney 0) mid) Station.H tH) hlook
  have hseq : processSeq (initState 0) id (mid ++ [(Station.H, tH)]) =
      Except.ok { sMid with
        ongoing := eraseJ (upsert sMid.ongoing id
          (fun j2 => setStation j2 Station.H tH) sMid.currentSession) id
        badgeScans := sMid.badgeScans ++
          [finalizeRow id (setStation (foldStations (freshJourney 0) mid)
            Station.H tH)] } := by
    rw [processSeq_append mid [(Station.H, tH)] (initState 0) id, hProcMid]
    show (match obsStep sMid Station.H id tH with
      | Except.error e => Except.error e
      | Except.ok s1 => processSeq s1 id []) = _
    rw [hHstep, hfin]
    rfl
  have hmem : finalizeRow id (setStation (foldStations (freshJourney 0) mid)
        Station.H tH) ∈
      sMid.badgeScans ++ [finalizeRow id (setStation
        (foldStations (freshJourney 0) mid) Station.H tH)] :=
    List.mem_append_right _ (List.mem_singleton.mpr rfl)
  have hh : (finalizeRow id (setStation (foldStations (freshJourney 0) mid)
      Station.H tH)).h ≠ none :=
    fun hcon => Option.noConfusion hcon
  have hslotA : (foldStations (freshJourney 0) mid).slot Station.A =
      optOr (lastObs Station.A mid) none :=
    slot_foldStations mid (freshJourney 0) Station.A
  have ha : Station.A ∈ (mid ++ [(Station.H, tH)]).map Prod.fst →
      (finalizeRow id (setStation (foldStations (freshJourney 0) mid)
        Station.H tH)).a ≠ none := by
    intro hmemA hcon
    have hmidA : Station.A ∈ mid.map Prod.fst := by
      rw [List.map_append] at hmemA
      rcases List.mem_append.mp hmemA with h1 | h1
      · exact h1
      · exact absurd (List.mem_singleton.mp h1) (fun h2 => Station.noConfusion h2)
    have hsome := lastObs_isSome_of_mem Station.A mid hmidA
    have hnone : lastObs Station.A mid = none :=
      (optOr_none (lastObs Station.A mid)).symm.trans (hslotA.symm.trans hcon)
    rw [hnone] at hsome
    exact Bool.noConfusion hsome
  have hb : (finalizeRow id (setStation (foldStations (freshJourney 0) mid)
        Station.H tH)).b = lastObs Station.B (mid ++ [(Station.H, tH)]) := by
    have h1 : (foldStations (freshJourney 0) mid).slot Station.B =
        optOr (lastObs Station.B mid) none :=
      slot_foldStations mid (freshJourney 0) Station.B
    rw [optOr_none] at h1
    rw [lastObs_concat_ne Station.B mid (Station.H, tH) (fun h2 => Station.noConfusion h2)]
    exact h1
  have hc : (finalizeRow id (setStation (foldStations (freshJourney 0) mid)
        Station.H tH)).c = lastObs Station.C (mid ++ [(Station.H, tH)]) := by
    have h1 : (foldStations (freshJourney 0) mid).slot Station.C =
        optOr (lastObs Station.C mid) none :=
      slot_foldStations mid (freshJourney 0) Station.C
    rw [optOr_none] at h1
    rw [lastObs_concat_ne Station.C mid (Station.H, tH) (fun h2 => Station.noConfusion h2)]
    exact h1
  have hv : (finalizeRow id (setStation (foldStations (freshJourney 0) mid)
        Station.H tH)).v = lastObs Station.V (mid ++ [(Station.H, tH)]) := by
    have h1 : (foldStations (freshJourney 0) mid).slot Station.V =
        optOr (lastObs Station.V mid) none :=
      slot_foldStations mid (freshJourney 0) Station.V
    rw [optOr_none] at h1
    rw [lastObs_concat_ne Station.V mid (Station.H, tH) (fun h2 => Station.noConfusion h2)]
    exact h1
  have hlookF : lookupJ (eraseJ (upsert sMid.ongoing id
      (fun j2 => setStation j2 Station.H tH) sMid.currentSession) id) id = none := by
    rw [hupsert, eraseJ_cons_self]
    rfl
  unfold c2ClaimProp
  rw [hseq]
  exact ⟨⟨finalizeRow id (setStation (foldStations (freshJourney 0) mid)
    Station.H tH), hmem, hh, ha, hb, hc, hv⟩, hlookF⟩

/-- Witness for C2 at the concrete single-journey sequence `A@1, B@2, H@3`. -/
theorem c2_witness :
    ((∀ x ∈ [(Station.A, 1), (Station.B, 2)], x.1 ≠ Station.H) ∧
      (∀ x ∈ ([(Station.A, 1), (Station.B, 2)] : List (Station × Int)).tail,
        x.1 ≠ Station.A)) ∧
    c2ClaimProp "AAAAAAAA" ([(Station.A, 1), (Station.B, 2)] ++ [(Station.H, 3)]) :=
  ⟨⟨by decide, by decide⟩,
    c2_amended "AAAAAAAA" [(Station.A, 1), (Station.B, 2)] 3 (by decide) (by decide)⟩
